import Mathlib

set_option linter.unusedVariables false

/- Shallow embedding of the vehicle CRUD service in src/main.rs.

   The raw request is one decoded text string.  String manipulation from the
   source (split, split_whitespace, starts_with, parse) is embedded on
   character lists so that every definition evaluates inside the kernel.

   External collaborators are modelled explicitly:
   - the Postgres store is a list of rows together with two injected outcome
     flags, one for Client connect and one for the execute or query call made
     on an established connection;
   - serde_json parsing is modelled by a small JSON parser and a field-by-field
     decoder that follows the derived Deserialize of the Car struct.

   A handler result is an optional (status line, content) pair together with
   the store contents after the call; the none response encodes the process
   panic produced by a failing unwrap in the source. -/

/-- Separator between the request head and the body: CR LF CR LF. -/
def crlf2 : List Char := ['\r', '\n', '\r', '\n']

/-- Fuel-indexed leftmost non-overlapping split of a character list on a
separator, the semantics of the Rust str split method used by the source. -/
def splitSepF (sep : List Char) : Nat → List Char → List (List Char)
  | _, [] => [[]]
  | 0, l => [l]
  | fuel + 1, c :: cs =>
    if sep.isPrefixOf (c :: cs) then
      [] :: splitSepF sep fuel ((c :: cs).drop sep.length)
    else
      match splitSepF sep fuel cs with
      | [] => [[c]]
      | t :: ts => (c :: t) :: ts

/-- Split of a character list on a separator, with enough fuel. -/
def splitOnChars (sep l : List Char) : List (List Char) :=
  splitSepF sep l.length l

/-- Does the separator occur as a contiguous run inside the list? -/
def hasInfix (sep : List Char) : List Char → Bool
  | [] => false
  | c :: cs => sep.isPrefixOf (c :: cs) || hasInfix sep cs

/-- Body extraction of the source: request.split CRLFCRLF, last piece,
empty string when the iterator is empty (which never happens). -/
def request_body_text (r : String) : String :=
  ((splitOnChars crlf2 r.toList).getLastD []).asString

/-- Fuel-indexed whitespace tokenizer, the semantics of the Rust
split_whitespace method: empty tokens are discarded. -/
def splitWhitespaceF : Nat → List Char → List (List Char)
  | _, [] => []
  | 0, _ => []
  | fuel + 1, c :: cs =>
    if c.isWhitespace then splitWhitespaceF fuel cs
    else
      ((c :: cs).takeWhile (fun d => !d.isWhitespace)) ::
        splitWhitespaceF fuel ((c :: cs).dropWhile (fun d => !d.isWhitespace))

/-- Whitespace tokenizer with enough fuel. -/
def split_whitespace (l : List Char) : List (List Char) :=
  splitWhitespaceF l.length l

/-- First whitespace token of a character list, empty when there is none. -/
def firstToken (l : List Char) : List Char :=
  (split_whitespace l).headD []

/-- Id extraction of the source: split the request text on the slash, take the
segment at index 2 (empty default), then the first whitespace token. -/
def get_id (r : String) : String :=
  (firstToken ((splitOnChars ['/'] r.toList).getD 2 [])).asString

/-- Value of a run of decimal digit characters. -/
def digitsToNat (ds : List Char) : Nat :=
  ds.foldl (fun a c => a * 10 + (c.toNat - 48)) 0

/-- Smallest value of the 32-bit signed integer type. -/
def i32min : Int := -2147483648

/-- Largest value of the 32-bit signed integer type. -/
def i32max : Int := 2147483647

/-- The Rust str parse method at type i32: optional sign, at least one digit,
nothing else, value within the 32-bit signed range. -/
def parse_i32 (s : String) : Option Int :=
  let signed : Int × List Char :=
    match s.toList with
    | '+' :: t => (1, t)
    | '-' :: t => (-1, t)
    | t => (1, t)
  match signed with
  | (sign, ds) =>
    if ds.isEmpty then none
    else if ds.all Char.isDigit then
      let v : Int := sign * (digitsToNat ds : Int)
      if i32min ≤ v ∧ v ≤ i32max then some v else none
    else none

/-- The Car struct of the source: optional id, brand, model, year, price.
The year and id fields are i32 in the source, embedded as Int with explicit
range checks at the decoding boundary; the price field is f64, embedded as an
exact rational since the service only stores and echoes it, never computes. -/
structure Car where
  id : Option Int
  brand : String
  model : String
  year : Int
  price : Rat
deriving DecidableEq

/-- One stored row of the cars table. -/
structure Row where
  id : Int
  brand : String
  model : String
  year : Int
  price : Rat
deriving DecidableEq

/-- Environment of one handler call: outcome of Client connect, outcome of the
execute or query issued on the established connection, current table contents,
and the id the store would assign to a newly inserted row (SERIAL column). -/
structure StoreEnv where
  connectOk : Bool
  opOk : Bool
  db : List Row
  freshId : Int
deriving DecidableEq

/-- The Postgres query_one call of the source: succeeds exactly when the
lookup matches one row. -/
def queryOne (db : List Row) (id : Int) : Option Row :=
  match db.filter (fun row => row.id == id) with
  | [row] => some row
  | _ => none

/-- Row projection of the source get handlers: id becomes Some id. -/
def rowToCar (row : Row) : Car :=
  ⟨some row.id, row.brand, row.model, row.year, row.price⟩

/-- Effect of the UPDATE statement on one row. -/
def updRow (id : Int) (car : Car) (row : Row) : Row :=
  if row.id == id then
    { row with brand := car.brand, model := car.model,
               year := car.year, price := car.price }
  else row

/-- Number of a JSON document: integer literals and decimal literals are kept
apart because serde rejects a decimal literal for an integer field. -/
inductive JNum where
  | int (n : Int)
  | float (q : Rat)
deriving DecidableEq

/-- JSON documents. -/
inductive Json where
  | null
  | bool (b : Bool)
  | num (n : JNum)
  | str (s : String)
  | arr (elems : List Json)
  | obj (members : List (String × Json))

/-- JSON insignificant whitespace. -/
def jsonSkipWs (l : List Char) : List Char :=
  l.dropWhile (fun c => c == ' ' || c == '\t' || c == '\n' || c == '\r')

/-- Modelled from the spec: body text of a JSON string literal after the
opening quote, with the common escapes; serde_json is an external collaborator
of the source, modelled here on the JSON format named by the spec.  Unicode
escapes are outside the model. -/
def parseStrChars : List Char → Option (List Char × List Char)
  | [] => none
  | '"' :: rest => some ([], rest)
  | '\\' :: e :: rest =>
    match (match e with
           | '"' => some '"'
           | '\\' => some '\\'
           | '/' => some '/'
           | 'n' => some '\n'
           | 't' => some '\t'
           | 'r' => some '\r'
           | _ => none) with
    | some c => (parseStrChars rest).map (fun p => (c :: p.1, p.2))
    | none => none
  | c :: rest => (parseStrChars rest).map (fun p => (c :: p.1, p.2))

/-- Modelled from the spec: a JSON number literal, optional minus, integer
part, optional fraction part; a literal with a fraction part is a float. -/
def parseNum (cs : List Char) : Option (JNum × List Char) :=
  let core : List Char → Bool → Option (JNum × List Char) := fun l neg =>
    let ip := l.takeWhile Char.isDigit
    let r1 := l.dropWhile Char.isDigit
    if ip.isEmpty then none
    else
      let ival : Int := (digitsToNat ip : Int)
      match r1 with
      | '.' :: r2 =>
        let fp := r2.takeWhile Char.isDigit
        let r3 := r2.dropWhile Char.isDigit
        if fp.isEmpty then none
        else
          let q : Rat := (ival : Rat) + (digitsToNat fp : Rat) / ((10 : Rat) ^ fp.length)
          some (JNum.float (if neg then -q else q), r3)
      | _ => some (JNum.int (if neg then -ival else ival), r1)
  match cs with
  | '-' :: t => core t true
  | t => core t false

mutual

/-- Modelled from the spec: one JSON value, fuel-indexed recursive descent. -/
def parseVal : Nat → List Char → Option (Json × List Char)
  | 0, _ => none
  | fuel + 1, cs =>
    match jsonSkipWs cs with
    | 'n' :: 'u' :: 'l' :: 'l' :: r => some (Json.null, r)
    | 't' :: 'r' :: 'u' :: 'e' :: r => some (Json.bool true, r)
    | 'f' :: 'a' :: 'l' :: 's' :: 'e' :: r => some (Json.bool false, r)
    | '"' :: r => (parseStrChars r).map (fun p => (Json.str p.1.asString, p.2))
    | '[' :: r =>
      (match jsonSkipWs r with
       | ']' :: r2 => some (Json.arr [], r2)
       | r2 => (parseElems fuel r2).map (fun p => (Json.arr p.1, p.2)))
    | '{' :: r =>
      (match jsonSkipWs r with
       | '}' :: r2 => some (Json.obj [], r2)
       | r2 => (parseMembers fuel r2).map (fun p => (Json.obj p.1, p.2)))
    | r => (parseNum r).map (fun p => (Json.num p.1, p.2))

/-- Modelled from the spec: array elements after the opening bracket. -/
def parseElems : Nat → List Char → Option (List Json × List Char)
  | 0, _ => none
  | fuel + 1, cs => do
    let (v, r) ← parseVal fuel cs
    match jsonSkipWs r with
    | ',' :: r2 => do
      let (vs, r3) ← parseElems fuel r2
      pure (v :: vs, r3)
    | ']' :: r2 => pure ([v], r2)
    | _ => none

/-- Modelled from the spec: object members after the opening brace. -/
def parseMembers : Nat → List Char → Option (List (String × Json) × List Char)
  | 0, _ => none
  | fuel + 1, cs =>
    match jsonSkipWs cs with
    | '"' :: r => do
      let (k, r1) ← parseStrChars r
      match jsonSkipWs r1 with
      | ':' :: r2 => do
        let (v, r3) ← parseVal fuel r2
        match jsonSkipWs r3 with
        | ',' :: r4 => do
          let (ms, r5) ← parseMembers fuel r4
          pure ((k.asString, v) :: ms, r5)
        | '}' :: r4 => pure ([(k.asString, v)], r4)
        | _ => none
      | _ => none
    | _ => none

end

/-- Modelled from the spec: serde_json from_str at type Json, requiring the
whole input to be one JSON value up to trailing whitespace. -/
def jsonParse (s : String) : Option Json :=
  match parseVal (s.length + 1) s.toList with
  | some (v, r) => if (jsonSkipWs r).isEmpty then some v else none
  | none => none

/-- Is the value within the 32-bit signed integer range? -/
def i32ok (n : Int) : Bool :=
  decide (i32min ≤ n) && decide (n ≤ i32max)

/-- Value of the optional id field of Car under the derived Deserialize:
null gives None, an in-range integer literal gives Some, all else errors. -/
def decodeId : Json → Option (Option Int)
  | Json.null => some none
  | Json.num (JNum.int n) => if i32ok n then some (some n) else none
  | _ => none

/-- Rational carried by a JSON number; an f64 field accepts both shapes. -/
def ratOfNum : JNum → Rat
  | JNum.int n => (n : Rat)
  | JNum.float q => q

/-- Decoding state of the derived Deserialize of Car: one slot per known
field, still empty or already seen. -/
structure DecSt where
  fid : Option (Option Int)
  fbrand : Option String
  fmodel : Option String
  fyear : Option Int
  fprice : Option Rat

/-- All slots empty. -/
def initDecSt : DecSt := ⟨none, none, none, none, none⟩

/-- One object member under the derived Deserialize of Car: a duplicate known
key errors, a wrongly typed value errors, an unknown key is ignored. -/
def decStep (st : DecSt) (kv : String × Json) : Option DecSt :=
  if kv.1 = "id" then
    match st.fid with
    | some _ => none
    | none => (decodeId kv.2).map (fun x => { st with fid := some x })
  else if kv.1 = "brand" then
    match st.fbrand, kv.2 with
    | some _, _ => none
    | none, Json.str s => some { st with fbrand := some s }
    | none, _ => none
  else if kv.1 = "model" then
    match st.fmodel, kv.2 with
    | some _, _ => none
    | none, Json.str s => some { st with fmodel := some s }
    | none, _ => none
  else if kv.1 = "year" then
    match st.fyear, kv.2 with
    | some _, _ => none
    | none, Json.num (JNum.int n) =>
      if i32ok n then some { st with fyear := some n } else none
    | none, _ => none
  else if kv.1 = "price" then
    match st.fprice, kv.2 with
    | some _, _ => none
    | none, Json.num n => some { st with fprice := some (ratOfNum n) }
    | none, _ => none
  else some st

/-- Fold of decStep over the object members. -/
def decodeFields : DecSt → List (String × Json) → Option DecSt
  | st, [] => some st
  | st, kv :: rest =>
    match decStep st kv with
    | some st2 => decodeFields st2 rest
    | none => none

/-- End of the derived Deserialize: the four required fields must have been
seen, the optional id field defaults to None. -/
def finalizeCar (st : DecSt) : Option Car :=
  match st.fbrand, st.fmodel, st.fyear, st.fprice with
  | some b, some m, some y, some p => some ⟨st.fid.getD none, b, m, y, p⟩
  | _, _, _, _ => none

/-- The derived Deserialize of Car on a JSON document. -/
def decodeCar : Json → Option Car
  | Json.obj kvs => (decodeFields initDecSt kvs).bind finalizeCar
  | _ => none

/-- get_car_request_body of the source: body text of the request, then
serde_json from_str at type Car. -/
def get_car_request_body (r : String) : Option Car :=
  (jsonParse (request_body_text r)).bind decodeCar

/-- One character of the serde_json string encoder. -/
def escapeJsonChar (c : Char) : String :=
  if c = '"' then "\\\""
  else if c = '\\' then "\\\\"
  else if c = '\n' then "\\n"
  else if c = '\r' then "\\r"
  else if c = '\t' then "\\t"
  else String.singleton c

/-- Body of a JSON string literal for a text value. -/
def escapeJson (s : String) : String :=
  s.toList.foldl (fun acc c => acc ++ escapeJsonChar c) ""

/-- Rendering of an integer value. -/
def intJson (n : Int) : String := toString n

/-- Modelled rendering of an f64 value; the exact digit string serde_json
would print is irrelevant to every claim, only injectivity on the stored
values matters, so an integral value prints with a trailing .0 and any other
value prints as numerator and denominator. -/
def ratJson (q : Rat) : String :=
  if q.den = 1 then intJson q.num ++ ".0"
  else intJson q.num ++ "/" ++ toString q.den

/-- Rendering of the optional id field. -/
def optIntJson : Option Int → String
  | none => "null"
  | some n => intJson n

/-- Modelled from the spec: serde_json to_string of one Car, fields in
declaration order. -/
def carJson (c : Car) : String :=
  "\x7b\"id\":" ++ optIntJson c.id ++ ",\"brand\":\"" ++ escapeJson c.brand ++
    "\",\"model\":\"" ++ escapeJson c.model ++ "\",\"year\":" ++ intJson c.year ++
    ",\"price\":" ++ ratJson c.price ++ "\x7d"

/-- Modelled from the spec: serde_json to_string of the row list of the get
all handler. -/
def carsJson (db : List Row) : String :=
  "[" ++ String.intercalate "," (db.map (fun row => carJson (rowToCar row))) ++ "]"

/-- Status preamble of a success response. -/
def OK_RESPONSE : String := "HTTP/1.1 200 OK\r\nContent-Type: application/json\r\n\r\n"

/-- Status preamble of a not-found response. -/
def NOT_FOUND : String := "HTTP/1.1 404 NOT FOUND\r\n\r\n"

/-- Status preamble of an internal-error response. -/
def INTERNAL_ERROR : String := "HTTP/1.1 500 INTERNAL ERROR\r\n\r\n"

/-- Result of one handler: the response pair, or none for the panic of a
failing unwrap, together with the table contents after the call. -/
abbrev HandlerResult := Option (String × String) × List Row

/-- handle_post_request of the source.  A decoded body and an established
connection lead to the INSERT whose parameters are the four value fields of
the body; the execute result is unwrapped, so a failing execute panics.  Any
other combination is the internal-error response. -/
def handle_post_request (r : String) (env : StoreEnv) : HandlerResult :=
  match get_car_request_body r, env.connectOk with
  | some car, true =>
    if env.opOk then
      (some (OK_RESPONSE, "Car created"),
       env.db ++ [⟨env.freshId, car.brand, car.model, car.year, car.price⟩])
    else (none, env.db)
  | _, _ => (some (INTERNAL_ERROR, "Internal error"), env.db)

/-- handle_get_request of the source.  A parsed id and an established
connection lead to query_one; the Ok row is serialized, every query_one error
(zero rows as well as a failing query) takes the underscore branch and is the
not-found response.  Any other combination is the internal-error response. -/
def handle_get_request (r : String) (env : StoreEnv) : HandlerResult :=
  match parse_i32 (get_id r), env.connectOk with
  | some id, true =>
    if env.opOk then
      match queryOne env.db id with
      | some row => (some (OK_RESPONSE, carJson (rowToCar row)), env.db)
      | none => (some (NOT_FOUND, "Car not found"), env.db)
    else (some (NOT_FOUND, "Car not found"), env.db)
  | _, _ => (some (INTERNAL_ERROR, "Internal error"), env.db)

/-- handle_get_all_request of the source.  An established connection leads to
the full scan whose result is unwrapped, so a failing query panics; the rows
are serialized.  A failing connection is the internal-error response. -/
def handle_get_all_request (r : String) (env : StoreEnv) : HandlerResult :=
  match env.connectOk with
  | true =>
    if env.opOk then (some (OK_RESPONSE, carsJson env.db), env.db)
    else (none, env.db)
  | false => (some (INTERNAL_ERROR, "Internal error"), env.db)

/-- handle_put_request of the source.  A parsed id, a decoded body and an
established connection lead to the UPDATE of the four value fields on every
row with that id; the execute result is unwrapped, so a failing execute
panics; the response is success with no affected-row check.  Any other
combination is the internal-error response. -/
def handle_put_request (r : String) (env : StoreEnv) : HandlerResult :=
  match parse_i32 (get_id r), get_car_request_body r, env.connectOk with
  | some id, some car, true =>
    if env.opOk then
      (some (OK_RESPONSE, "Car updated"), env.db.map (updRow id car))
    else (none, env.db)
  | _, _, _ => (some (INTERNAL_ERROR, "Internal error"), env.db)

/-- handle_delete_request of the source.  A parsed id and an established
connection lead to the DELETE whose affected-row count is unwrapped, so a
failing execute panics; a zero count is the not-found response, otherwise
success.  Any other combination is the internal-error response. -/
def handle_delete_request (r : String) (env : StoreEnv) : HandlerResult :=
  match parse_i32 (get_id r), env.connectOk with
  | some id, true =>
    if env.opOk then
      let n := (env.db.filter (fun row => row.id == id)).length
      let db2 := env.db.filter (fun row => row.id != id)
      if n = 0 then (some (NOT_FOUND, "Car not found"), db2)
      else (some (OK_RESPONSE, "Car deleted"), db2)
    else (none, env.db)
  | _, _ => (some (INTERNAL_ERROR, "Internal error"), env.db)

/-- The Rust str starts_with method. -/
def starts_with (r p : String) : Bool :=
  p.toList.isPrefixOf r.toList

/-- Dispatch of handle_client on the decoded request text: five prefix guards
in source order, then the not-found fallback. -/
def handle_client (r : String) (env : StoreEnv) : HandlerResult :=
  if starts_with r "POST /cars" then handle_post_request r env
  else if starts_with r "GET /cars/" then handle_get_request r env
  else if starts_with r "GET /cars" then handle_get_all_request r env
  else if starts_with r "PUT /cars/" then handle_put_request r env
  else if starts_with r "DELETE /cars/" then handle_delete_request r env
  else (some (NOT_FOUND, "404 not found"), env.db)

/-- Spec reading of the body rule, for comparison with the source: the text
following the first blank-line separator, empty when there is none. -/
def specBodyFirst (r : String) : String :=
  match splitOnChars crlf2 r.toList with
  | _ :: rest =>
    if rest.isEmpty then "" else (List.intercalate crlf2 rest).asString
  | [] => ""

/-- Spec reading of the id rule, for comparison with the source: the segment
at index 2 of the split on the slash, truncated at the first whitespace. -/
def specExtractId (s : String) : String :=
  (((splitOnChars ['/'] s.toList).getD 2 []).takeWhile (fun c => !c.isWhitespace)).asString

/-- Helper constants for the concrete witnesses. -/
def reqPost0 : String := "POST /cars\r\n\r\n\x7b\"brand\":\"a\",\"model\":\"b\",\"year\":1,\"price\":2\x7d"

/-- A get request for id 1. -/
def reqGet0 : String := "GET /cars/1 HTTP/1.1"

/-- A put request for id 1 with a decodable body. -/
def reqPut0 : String := "PUT /cars/1\r\n\r\n\x7b\"brand\":\"c\",\"model\":\"d\",\"year\":3,\"price\":4\x7d"

/-- A delete request for id 1. -/
def reqDel0 : String := "DELETE /cars/1 HTTP/1.1"

/-- A post request whose body is not JSON. -/
def reqBad0 : String := "POST /cars\r\n\r\nnot json"

/-- A stored row with id 1. -/
def row0 : Row := ⟨1, "a", "b", 1, 2⟩

theorem nil_prefixOf (l : List Char) : ([] : List Char).isPrefixOf l = true := by
  cases l <;> rfl

theorem cons_prefixOf_cons (a b : Char) (as bs : List Char) :
    (a :: as).isPrefixOf (b :: bs) = (a == b && as.isPrefixOf bs) := rfl

theorem cons_prefixOf_nil (a : Char) (as : List Char) :
    (a :: as).isPrefixOf ([] : List Char) = false := rfl

theorem prefixOf_append_drop : ∀ (p l : List Char), p.isPrefixOf l = true → p ++ l.drop p.length = l
  | [], l, _ => by simp
  | a :: as, [], h => by rw [cons_prefixOf_nil] at h; exact absurd h (by simp)
  | a :: as, b :: bs, h => by
    rw [cons_prefixOf_cons, Bool.and_eq_true, beq_iff_eq] at h
    have hab : a = b := h.1
    have ih := prefixOf_append_drop as bs h.2
    subst hab
    simp only [List.cons_append, List.length_cons, List.drop_succ_cons]
    rw [ih]

theorem prefixOf_trans : ∀ (p q l : List Char), p.isPrefixOf q = true → q.isPrefixOf l = true →
    p.isPrefixOf l = true
  | [], _, l, _, _ => nil_prefixOf l
  | a :: as, [], _, h, _ => by rw [cons_prefixOf_nil] at h; exact absurd h (by simp)
  | a :: as, b :: bs, [], _, h2 => by rw [cons_prefixOf_nil] at h2; exact absurd h2 (by simp)
  | a :: as, b :: bs, c :: cs, h, h2 => by
    rw [cons_prefixOf_cons, Bool.and_eq_true, beq_iff_eq] at h h2
    rw [cons_prefixOf_cons, Bool.and_eq_true, beq_iff_eq]
    exact ⟨h.1.trans h2.1, prefixOf_trans as bs cs h.2 h2.2⟩

theorem prefixOf_comparable : ∀ (l p q : List Char), p.isPrefixOf l = true → q.isPrefixOf l = true →
    p.isPrefixOf q = true ∨ q.isPrefixOf p = true
  | _, [], q, _, _ => Or.inl (nil_prefixOf q)
  | _, p, [], _, _ => Or.inr (nil_prefixOf p)
  | [], a :: as, _ :: _, h, _ => by rw [cons_prefixOf_nil] at h; exact absurd h (by simp)
  | c :: cs, a :: as, b :: bs, h, h2 => by
    rw [cons_prefixOf_cons, Bool.and_eq_true, beq_iff_eq] at h h2
    rcases prefixOf_comparable cs as bs h.2 h2.2 with hc | hc
    · refine Or.inl ?_
      rw [cons_prefixOf_cons, Bool.and_eq_true, beq_iff_eq]
      exact ⟨h.1.trans h2.1.symm, hc⟩
    · refine Or.inr ?_
      rw [cons_prefixOf_cons, Bool.and_eq_true, beq_iff_eq]
      exact ⟨h2.1.trans h.1.symm, hc⟩

theorem starts_with_excl {r p q : String} (h : starts_with r p = true)
    (h1 : p.toList.isPrefixOf q.toList = false) (h2 : q.toList.isPrefixOf p.toList = false) :
    starts_with r q = false := by
  unfold starts_with at *
  cases hq : q.toList.isPrefixOf r.toList
  · rfl
  · rcases prefixOf_comparable r.toList p.toList q.toList h hq with hc | hc
    · rw [h1] at hc; exact absurd hc (by simp)
    · rw [h2] at hc; exact absurd hc (by simp)

theorem starts_with_mono {r p q : String} (h : starts_with r q = true)
    (hsub : p.toList.isPrefixOf q.toList = true) : starts_with r p = true := by
  unfold starts_with at *
  exact prefixOf_trans _ _ _ hsub h

theorem hasInfix_append_left (sep b : List Char) : ∀ (a : List Char),
    hasInfix sep b = true → hasInfix sep (a ++ b) = true
  | [], h => h
  | c :: a2, h => by
    have ih := hasInfix_append_left sep b a2 h
    simp [hasInfix, ih]

theorem hasInfix_append_left_false {sep a b : List Char}
    (h : hasInfix sep (a ++ b) = false) : hasInfix sep b = false := by
  cases hx : hasInfix sep b
  · rfl
  · exact absurd (hasInfix_append_left sep b a hx) (by simp [h])

theorem getLastD_irrel : ∀ (l : List (List Char)) (d1 d2 : List Char), l ≠ [] →
    l.getLastD d1 = l.getLastD d2
  | [], _, _, h => absurd rfl h
  | [x], _, _, _ => rfl
  | x :: y :: t, d1, d2, _ => by
    simp only [List.getLastD_cons]

theorem splitSepF_spec (sep : List Char) (hsep : sep ≠ []) :
    ∀ fuel l, l.length ≤ fuel →
      splitSepF sep fuel l ≠ [] ∧
      hasInfix sep ((splitSepF sep fuel l).getLastD []) = false ∧
      (hasInfix sep l = false → splitSepF sep fuel l = [l]) ∧
      (hasInfix sep l = true → ∃ p, l = p ++ (sep ++ (splitSepF sep fuel l).getLastD [])) ∧
      (hasInfix sep l = true → 2 ≤ (splitSepF sep fuel l).length) := by
  intro fuel
  induction fuel with
  | zero =>
    intro l hl
    have hl0 : l = [] := List.length_eq_zero.mp (Nat.le_zero.mp hl)
    subst hl0
    refine ⟨by simp [splitSepF], by simp [splitSepF, hasInfix], fun _ => rfl, ?_, ?_⟩
    · intro hcontra
      rw [show hasInfix sep ([] : List Char) = false from rfl] at hcontra
      cases hcontra
    · intro hcontra
      rw [show hasInfix sep ([] : List Char) = false from rfl] at hcontra
      cases hcontra
  | succ fuel ih =>
    intro l hl
    match l with
    | [] =>
      refine ⟨by simp [splitSepF], by simp [splitSepF, hasInfix], fun _ => rfl, ?_, ?_⟩
      · intro hcontra
        rw [show hasInfix sep ([] : List Char) = false from rfl] at hcontra
        cases hcontra
      · intro hcontra
        rw [show hasInfix sep ([] : List Char) = false from rfl] at hcontra
        cases hcontra
    | c :: cs =>
      have hinf : hasInfix sep (c :: cs) = (sep.isPrefixOf (c :: cs) || hasInfix sep cs) := rfl
      by_cases hp : sep.isPrefixOf (c :: cs) = true
      · have hsl : 1 ≤ sep.length := by
          cases sep with
          | nil => exact absurd rfl hsep
          | cons x xs => simp
        have hlen : ((c :: cs).drop sep.length).length ≤ fuel := by
          simp only [List.length_drop, List.length_cons]
          simp only [List.length_cons] at hl
          omega
        obtain ⟨ih1, ih2, ih3, ih4, ih5⟩ := ih ((c :: cs).drop sep.length) hlen
        have heq : splitSepF sep (fuel + 1) (c :: cs) =
            [] :: splitSepF sep fuel ((c :: cs).drop sep.length) := by
          simp only [splitSepF]
          rw [if_pos hp]
        have hlast : (splitSepF sep (fuel + 1) (c :: cs)).getLastD [] =
            (splitSepF sep fuel ((c :: cs).drop sep.length)).getLastD [] := by
          rw [heq, List.getLastD_cons]
        refine ⟨by rw [heq]; simp, by rw [hlast]; exact ih2, ?_, ?_, ?_⟩
        · intro hno
          rw [hinf, hp] at hno
          simp at hno
        · intro _
          have hdec : sep ++ (c :: cs).drop sep.length = c :: cs :=
            prefixOf_append_drop sep (c :: cs) hp
          by_cases hd : hasInfix sep ((c :: cs).drop sep.length) = true
          · obtain ⟨p, hpE⟩ := ih4 hd
            refine ⟨sep ++ p, ?_⟩
            rw [hlast]
            rw [List.append_assoc]
            rw [← hpE]
            exact hdec.symm
          · have hd2 : hasInfix sep ((c :: cs).drop sep.length) = false := by
              cases hx : hasInfix sep ((c :: cs).drop sep.length)
              · rfl
              · exact absurd hx hd
            have h3 := ih3 hd2
            refine ⟨[], ?_⟩
            rw [hlast, h3]
            simpa using hdec.symm
        · intro _
          rw [heq]
          have := List.length_pos.mpr ih1
          simp only [List.length_cons]
          omega
      · have hp2 : sep.isPrefixOf (c :: cs) = false := by
          cases hx : sep.isPrefixOf (c :: cs)
          · rfl
          · exact absurd hx hp
        have hlen2 : cs.length ≤ fuel := by
          simp only [List.length_cons] at hl
          omega
        obtain ⟨ih1, ih2, ih3, ih4, ih5⟩ := ih cs hlen2
        have hinf2 : hasInfix sep (c :: cs) = hasInfix sep cs := by
          rw [hinf, hp2, Bool.false_or]
        cases hrec : splitSepF sep fuel cs with
        | nil => exact absurd hrec ih1
        | cons t ts =>
          rw [hrec] at ih2 ih4 ih5
          have heq : splitSepF sep (fuel + 1) (c :: cs) = (c :: t) :: ts := by
            simp only [splitSepF]
            rw [if_neg hp, hrec]
          cases ts with
          | nil =>
            have hcs : hasInfix sep cs = false := by
              cases hx : hasInfix sep cs
              · rfl
              · have h2le := ih5 hx
                simp at h2le
            have hteq : t = cs := by
              have hx := hrec.symm.trans (ih3 hcs)
              simpa using hx
            subst hteq
            refine ⟨by rw [heq]; simp, ?_, ?_, ?_, ?_⟩
            · rw [heq]
              simp only [List.getLastD_cons, List.getLastD_nil]
              rw [hinf2]
              exact hcs
            · intro _
              exact heq
            · intro htrue
              rw [hinf2, hcs] at htrue
              cases htrue
            · intro htrue
              rw [hinf2, hcs] at htrue
              cases htrue
          | cons u us =>
            have hlasteq : (splitSepF sep (fuel + 1) (c :: cs)).getLastD [] =
                (t :: u :: us).getLastD [] := by
              rw [heq]
              simp only [List.getLastD_cons]
            refine ⟨by rw [heq]; simp, by rw [hlasteq]; exact ih2, ?_, ?_, ?_⟩
            · intro hno
              rw [hinf2] at hno
              have hx := hrec.symm.trans (ih3 hno)
              simp at hx
            · intro htrue
              rw [hinf2] at htrue
              obtain ⟨p, hpE⟩ := ih4 htrue
              refine ⟨c :: p, ?_⟩
              rw [hlasteq]
              rw [show (c :: p) ++ (sep ++ (t :: u :: us).getLastD []) =
                    c :: (p ++ (sep ++ (t :: u :: us).getLastD [])) from rfl]
              rw [← hpE]
            · intro _
              rw [heq]
              simp

theorem asString_toList (s : String) : s.toList.asString = s := rfl

/-- C3: the claim reads the body as the text after the first blank-line
separator, empty when no separator occurs.  The source takes the last piece of
the split instead, so the claim is false; this counterexample shows a request
with two separators where the extracted body is the final piece, not the text
after the first separator, and a separator-free request whose extracted body is
the whole request, not the empty string. -/
theorem c3_counterexample :
    ¬ (request_body_text "a\r\n\r\nb\r\n\r\nc" = specBodyFirst "a\r\n\r\nb\r\n\r\nc") ∧
    ¬ (request_body_text "abc" = specBodyFirst "abc") := by
  decide

/-- C3 amended: the extracted body is the text after the last separator match
of the leftmost non-overlapping scan: it never contains the separator, a
separator-free request is returned whole, and whenever the separator occurs
the request is some prefix, then the separator, then the extracted body. -/
theorem c3_body_after_last_separator (r : String) :
    hasInfix crlf2 (request_body_text r).toList = false ∧
    (hasInfix crlf2 r.toList = false → request_body_text r = r) ∧
    (hasInfix crlf2 r.toList = true →
      ∃ p, r.toList = p ++ (crlf2 ++ (request_body_text r).toList)) := by
  obtain ⟨h1, h2, h3, h4, h5⟩ :=
    splitSepF_spec crlf2 (by simp [crlf2]) r.toList.length r.toList (le_refl _)
  have hbody : (request_body_text r).toList = (splitOnChars crlf2 r.toList).getLastD [] := rfl
  refine ⟨?_, ?_, ?_⟩
  · rw [hbody]
    exact h2
  · intro hno
    have hx := h3 hno
    unfold request_body_text splitOnChars
    rw [show splitSepF crlf2 r.toList.length r.toList = [r.toList] from hx]
    rw [show ([r.toList].getLastD []) = r.toList from rfl]
    exact asString_toList r
  · intro hyes
    obtain ⟨p, hpE⟩ := h4 hyes
    exact ⟨p, by rw [hbody]; exact hpE⟩

/-- C3 witness: the amended theorem applied at a separator-free request. -/
theorem c3_witness : request_body_text "abc" = "abc" :=
  (c3_body_after_last_separator "abc").2.1 (by decide)

theorem splitWhitespaceF_head : ∀ (fuel : Nat) (l : List Char), l.length ≤ fuel →
    (splitWhitespaceF fuel l).headD [] =
      (l.dropWhile Char.isWhitespace).takeWhile (fun d => !d.isWhitespace) := by
  intro fuel
  induction fuel with
  | zero =>
    intro l hl
    have hl0 : l = [] := List.length_eq_zero.mp (Nat.le_zero.mp hl)
    subst hl0
    rfl
  | succ fuel ih =>
    intro l hl
    match l with
    | [] => rfl
    | c :: cs =>
      by_cases hw : c.isWhitespace = true
      · have heq : splitWhitespaceF (fuel + 1) (c :: cs) = splitWhitespaceF fuel cs := by
          simp only [splitWhitespaceF]
          rw [if_pos hw]
        rw [heq, List.dropWhile_cons_of_pos hw]
        exact ih cs (by simp only [List.length_cons] at hl; omega)
      · have hw2 : c.isWhitespace = false := by
          cases hx : c.isWhitespace
          · rfl
          · exact absurd hx hw
        have heq : splitWhitespaceF (fuel + 1) (c :: cs) =
            ((c :: cs).takeWhile (fun d => !d.isWhitespace)) ::
              splitWhitespaceF fuel ((c :: cs).dropWhile (fun d => !d.isWhitespace)) := by
          simp only [splitWhitespaceF]
          rw [if_neg hw]
        rw [heq]
        conv_rhs => rw [List.dropWhile_cons_of_neg hw]
        rfl

/-- C9: the claim reads the id as the index-2 segment truncated at the first
whitespace.  The source tokenizer first skips leading whitespace, so on a path
with an empty id segment the request text yields the token HTTP where the
claim yields the empty string. -/
theorem c9_counterexample :
    get_id "GET /cars/ HTTP/1.1" = "HTTP" ∧
    specExtractId "GET /cars/ HTTP/1.1" = "" ∧
    ¬ (get_id "GET /cars/ HTTP/1.1" = specExtractId "GET /cars/ HTTP/1.1") := by
  refine ⟨by decide, by decide, by decide⟩

/-- C9 amended: the extractor returns the first whitespace token of the
segment at index 2 of the split on the slash, leading whitespace skipped; when
the segment is missing the result is the empty string, and when the segment
does not begin with whitespace the result agrees with the claim, the segment
truncated at the first whitespace. -/
theorem c9_get_id_characterization (s : String) :
    get_id s = ((((splitOnChars ['/'] s.toList).getD 2 []).dropWhile
        Char.isWhitespace).takeWhile (fun d => !d.isWhitespace)).asString ∧
    ((splitOnChars ['/'] s.toList).length ≤ 2 → get_id s = "") ∧
    (∀ c rest, (splitOnChars ['/'] s.toList).getD 2 [] = c :: rest →
      c.isWhitespace = false → get_id s = specExtractId s) := by
  have hmain : get_id s = ((((splitOnChars ['/'] s.toList).getD 2 []).dropWhile
      Char.isWhitespace).takeWhile (fun d => !d.isWhitespace)).asString := by
    unfold get_id firstToken split_whitespace
    rw [splitWhitespaceF_head _ _ (le_refl _)]
  refine ⟨hmain, ?_, ?_⟩
  · intro hlen
    rw [hmain, List.getD_eq_default _ _ hlen]
    rfl
  · intro c rest hseg hcw
    rw [hmain, hseg, List.dropWhile_cons_of_neg (by simp [hcw])]
    unfold specExtractId
    rw [hseg]

/-- C9 witness: the amended theorem applied at a get request for id 7. -/
theorem c9_witness : get_id "GET /cars/7" = "7" := by
  have h := (c9_get_id_characterization "GET /cars/7").2.2 '7' [] (by decide) (by decide)
  rw [h]
  decide

theorem filter_id_nil (db : List Row) (idv : Int) (h : ∀ row ∈ db, row.id ≠ idv) :
    db.filter (fun row => row.id == idv) = [] := by
  induction db with
  | nil => rfl
  | cons a t ih =>
    have ha : (a.id == idv) = false := beq_eq_false_iff_ne.mpr (h a (by simp))
    rw [List.filter_cons, ha]
    simp only [Bool.false_eq_true, if_false]
    exact ih (fun row hr => h row (by simp [hr]))

theorem filter_ne_self (db : List Row) (idv : Int) (h : ∀ row ∈ db, row.id ≠ idv) :
    db.filter (fun row => row.id != idv) = db := by
  induction db with
  | nil => rfl
  | cons a t ih =>
    have ha : (a.id != idv) = true := bne_iff_ne.mpr (h a (by simp))
    rw [List.filter_cons, ha]
    simp only [if_true]
    rw [ih (fun row hr => h row (by simp [hr]))]

/-- C2: the claim says every handler always returns a response pair and the
error branch of every unwrap is unreachable.  It is not: with an established
connection whose execute fails, the post handler reaches the unwrap of the
INSERT result and panics, modelled by the none response. -/
theorem c2_counterexample :
    (handle_post_request reqPost0 ⟨true, false, [], 1⟩).1 = none := by
  decide

/-- C2 amended: every handler returns a response pair whenever the execute or
query on an established connection succeeds, and a failed connection is
funnelled into the internal-error response by every handler; only a failing
store call after a successful connect escapes as a panic. -/
theorem c2_handlers_response (r : String) (env : StoreEnv) :
    (env.opOk = true →
      (handle_post_request r env).1.isSome = true ∧
      (handle_get_request r env).1.isSome = true ∧
      (handle_get_all_request r env).1.isSome = true ∧
      (handle_put_request r env).1.isSome = true ∧
      (handle_delete_request r env).1.isSome = true) ∧
    (env.connectOk = false →
      handle_post_request r env = (some (INTERNAL_ERROR, "Internal error"), env.db) ∧
      handle_get_request r env = (some (INTERNAL_ERROR, "Internal error"), env.db) ∧
      handle_get_all_request r env = (some (INTERNAL_ERROR, "Internal error"), env.db) ∧
      handle_put_request r env = (some (INTERNAL_ERROR, "Internal error"), env.db) ∧
      handle_delete_request r env = (some (INTERNAL_ERROR, "Internal error"), env.db)) := by
  constructor
  · intro hop
    refine ⟨?_, ?_, ?_, ?_, ?_⟩
    · unfold handle_post_request
      split
      · rw [if_pos hop]
        simp
      · simp
    · unfold handle_get_request
      split
      · rw [if_pos hop]
        split <;> simp
      · simp
    · unfold handle_get_all_request
      split
      · rw [if_pos hop]
        simp
      · simp
    · unfold handle_put_request
      split
      · rw [if_pos hop]
        simp
      · simp
    · unfold handle_delete_request
      split
      · rw [if_pos hop]
        dsimp only
        split <;> simp
      · simp
  · intro hc
    refine ⟨?_, ?_, ?_, ?_, ?_⟩
    · unfold handle_post_request
      split
      · simp_all
      · rfl
    · unfold handle_get_request
      split
      · simp_all
      · rfl
    · unfold handle_get_all_request
      split
      · simp_all
      · rfl
    · unfold handle_put_request
      split
      · simp_all
      · rfl
    · unfold handle_delete_request
      split
      · simp_all
      · rfl

/-- C2 witness: the amended theorem applied at a concrete get-all request. -/
theorem c2_witness : (handle_get_all_request "GET /cars" ⟨true, true, [], 1⟩).1.isSome = true :=
  ((c2_handlers_response "GET /cars" ⟨true, true, [], 1⟩).1 rfl).2.2.1

/-- C4: the claim says a query failure is never reported as not-found.  It is:
with an established connection whose query_one call fails, the get handler
takes the underscore branch and answers not-found even though the stored table
holds a row with the requested id. -/
theorem c4_counterexample :
    handle_get_request reqGet0 ⟨true, false, [row0], 2⟩ =
      (some (NOT_FOUND, "Car not found"), [row0]) ∧
    row0.id = 1 := by
  constructor
  · decide
  · rfl

/-- C4 amended: with a parsed id and an established connection, the handler
answers with the serialized row when query_one returns one matching row,
answers not-found when the lookup matches no single row, and also answers
not-found when the query itself fails; only id-parse and connection failures
yield the internal error. -/
theorem c4_get_one_semantics (r : String) (env : StoreEnv) (idv : Int)
    (hid : parse_i32 (get_id r) = some idv) (hc : env.connectOk = true) :
    (env.opOk = true → ∀ row, queryOne env.db idv = some row →
      handle_get_request r env = (some (OK_RESPONSE, carJson (rowToCar row)), env.db)) ∧
    (env.opOk = true → queryOne env.db idv = none →
      handle_get_request r env = (some (NOT_FOUND, "Car not found"), env.db)) ∧
    (env.opOk = false →
      handle_get_request r env = (some (NOT_FOUND, "Car not found"), env.db)) := by
  refine ⟨?_, ?_, ?_⟩
  · intro hop row hq
    simp [handle_get_request, hid, hc, hop, hq]
  · intro hop hq
    simp [handle_get_request, hid, hc, hop, hq]
  · intro hop
    simp [handle_get_request, hid, hc, hop]

/-- C4 witness: the amended theorem applied at a stored row with id 1. -/
theorem c4_witness :
    handle_get_request reqGet0 ⟨true, true, [row0], 2⟩ =
      (some (OK_RESPONSE, carJson (rowToCar row0)), [row0]) :=
  (c4_get_one_semantics reqGet0 ⟨true, true, [row0], 2⟩ 1 (by decide) rfl).1 rfl row0 (by decide)

/-- C7: a create or update body that fails decoding into the Car entity is
answered with the generic internal error and the store is left untouched. -/
theorem c7_malformed_body (r : String) (env : StoreEnv)
    (h : get_car_request_body r = none) :
    handle_post_request r env = (some (INTERNAL_ERROR, "Internal error"), env.db) ∧
    handle_put_request r env = (some (INTERNAL_ERROR, "Internal error"), env.db) := by
  constructor
  · cases hcon : env.connectOk <;> simp [handle_post_request, h, hcon]
  · cases hp : parse_i32 (get_id r) <;> cases hcon : env.connectOk <;>
      simp [handle_put_request, h, hp, hcon]

/-- C7 witness: the theorem applied at a post request whose body is not
JSON. -/
theorem c7_witness :
    handle_post_request reqBad0 ⟨true, true, [], 1⟩ =
      (some (INTERNAL_ERROR, "Internal error"), []) :=
  (c7_malformed_body reqBad0 ⟨true, true, [], 1⟩ (by decide)).1

/-- C8: dispatch follows the source priority order of prefix matches: POST
/cars to create, then GET /cars/ to get one, then GET /cars to get all, then
PUT /cars/ to update, then DELETE /cars/ to delete, anything else to the
not-found response. -/
theorem c8_dispatch_priority (r : String) (env : StoreEnv) :
    (starts_with r "POST /cars" = true → handle_client r env = handle_post_request r env) ∧
    (starts_with r "GET /cars/" = true → handle_client r env = handle_get_request r env) ∧
    (starts_with r "GET /cars" = true → starts_with r "GET /cars/" = false →
      handle_client r env = handle_get_all_request r env) ∧
    (starts_with r "PUT /cars/" = true → handle_client r env = handle_put_request r env) ∧
    (starts_with r "DELETE /cars/" = true → handle_client r env = handle_delete_request r env) ∧
    (starts_with r "POST /cars" = false → starts_with r "GET /cars" = false →
      starts_with r "PUT /cars/" = false → starts_with r "DELETE /cars/" = false →
      handle_client r env = (some (NOT_FOUND, "404 not found"), env.db)) := by
  refine ⟨?_, ?_, ?_, ?_, ?_, ?_⟩
  · intro h
    simp [handle_client, h]
  · intro h
    have hpost := @starts_with_excl r "GET /cars/" "POST /cars" h (by decide) (by decide)
    simp [handle_client, hpost, h]
  · intro h hGs
    have hpost := @starts_with_excl r "GET /cars" "POST /cars" h (by decide) (by decide)
    simp [handle_client, hpost, hGs, h]
  · intro h
    have hpost := @starts_with_excl r "PUT /cars/" "POST /cars" h (by decide) (by decide)
    have hg1 := @starts_with_excl r "PUT /cars/" "GET /cars/" h (by decide) (by decide)
    have hg2 := @starts_with_excl r "PUT /cars/" "GET /cars" h (by decide) (by decide)
    simp [handle_client, hpost, hg1, hg2, h]
  · intro h
    have hpost := @starts_with_excl r "DELETE /cars/" "POST /cars" h (by decide) (by decide)
    have hg1 := @starts_with_excl r "DELETE /cars/" "GET /cars/" h (by decide) (by decide)
    have hg2 := @starts_with_excl r "DELETE /cars/" "GET /cars" h (by decide) (by decide)
    have hput := @starts_with_excl r "DELETE /cars/" "PUT /cars/" h (by decide) (by decide)
    simp [handle_client, hpost, hg1, hg2, hput, h]
  · intro h1 h2 h3 h4
    have h2b : starts_with r "GET /cars/" = false := by
      cases hx : starts_with r "GET /cars/"
      · rfl
      · have hmono := @starts_with_mono r "GET /cars" "GET /cars/" hx (by decide)
        rw [h2] at hmono
        cases hmono
    simp [handle_client, h1, h2, h2b, h3, h4]

/-- C8 witness: the dispatch theorem applied at a delete request. -/
theorem c8_witness :
    handle_client reqDel0 ⟨true, true, [], 1⟩ = handle_delete_request reqDel0 ⟨true, true, [], 1⟩ :=
  (c8_dispatch_priority reqDel0 ⟨true, true, [], 1⟩).2.2.2.2.1 (by decide)

/-- C5: deleting a stored id answers success and the row is gone from the
table scanned by get-all; deleting an absent id answers not-found and leaves
the table unchanged. -/
theorem c5_delete_semantics (r r2 : String) (env : StoreEnv) (idv : Int)
    (hid : parse_i32 (get_id r) = some idv) (hc : env.connectOk = true) (hop : env.opOk = true) :
    ((∃ row ∈ env.db, row.id = idv) →
      handle_delete_request r env =
        (some (OK_RESPONSE, "Car deleted"), env.db.filter (fun row => row.id != idv)) ∧
      (∀ row ∈ (handle_delete_request r env).2, row.id ≠ idv) ∧
      handle_get_all_request r2 { env with db := (handle_delete_request r env).2 } =
        (some (OK_RESPONSE, carsJson (handle_delete_request r env).2),
         (handle_delete_request r env).2)) ∧
    ((∀ row ∈ env.db, row.id ≠ idv) →
      handle_delete_request r env = (some (NOT_FOUND, "Car not found"), env.db)) := by
  constructor
  · intro hex
    obtain ⟨row, hmem, hrow⟩ := hex
    have hn0 : ¬ ((env.db.filter (fun r3 => r3.id == idv)).length = 0) := by
      have hmemf : row ∈ env.db.filter (fun r3 => r3.id == idv) :=
        List.mem_filter.mpr ⟨hmem, by simp [hrow]⟩
      intro h0
      rw [List.length_eq_zero] at h0
      rw [h0] at hmemf
      cases hmemf
    have hdel : handle_delete_request r env =
        (some (OK_RESPONSE, "Car deleted"), env.db.filter (fun row => row.id != idv)) := by
      simp only [handle_delete_request, hid, hc, hop]
      rw [if_neg hn0]
      simp
    refine ⟨hdel, ?_, ?_⟩
    · rw [hdel]
      intro r3 hr3
      exact bne_iff_ne.mp (List.mem_filter.mp hr3).2
    · rw [hdel]
      simp [handle_get_all_request, hc, hop]
  · intro hall
    have hfn : env.db.filter (fun row => row.id == idv) = [] := filter_id_nil env.db idv hall
    have hfs : env.db.filter (fun row => row.id != idv) = env.db := filter_ne_self env.db idv hall
    simp [handle_delete_request, hid, hc, hop, hfn, hfs]

/-- C5 witness: the theorem applied where the stored table holds id 1. -/
theorem c5_witness :
    handle_delete_request reqDel0 ⟨true, true, [row0], 2⟩ =
      (some (OK_RESPONSE, "Car deleted"), []) := by
  have h := (c5_delete_semantics reqDel0 "GET /cars" ⟨true, true, [row0], 2⟩ 1
    (by decide) rfl rfl).1 ⟨row0, by decide⟩
  rw [h.1]
  decide

theorem updRow_id (idv : Int) (car : Car) (row : Row) : (updRow idv car row).id = row.id := by
  unfold updRow
  split <;> rfl

theorem filter_map_updRow (db : List Row) (idv : Int) (car : Car) :
    (db.map (updRow idv car)).filter (fun row => row.id == idv) =
      (db.filter (fun row => row.id == idv)).map (updRow idv car) := by
  induction db with
  | nil => rfl
  | cons a t ih =>
    rw [List.map_cons, List.filter_cons, List.filter_cons, updRow_id]
    cases hx : (a.id == idv) <;> simp [ih]

theorem map_updRow_eq_self (db : List Row) (idv : Int) (car : Car)
    (h : ∀ row ∈ db, row.id ≠ idv) : db.map (updRow idv car) = db := by
  induction db with
  | nil => rfl
  | cons a t ih =>
    rw [List.map_cons]
    have ha : updRow idv car a = a := by
      unfold updRow
      have hb : (a.id == idv) = false := beq_eq_false_iff_ne.mpr (h a (by simp))
      rw [hb]
      simp
    rw [ha, ih (fun row hr => h row (by simp [hr]))]

theorem queryOne_filter (db : List Row) (idv : Int) (row : Row)
    (hq : queryOne db idv = some row) :
    db.filter (fun r3 => r3.id == idv) = [row] ∧ row.id = idv := by
  unfold queryOne at hq
  split at hq
  · rename_i row1 heq
    injection hq with hq2
    subst hq2
    refine ⟨heq, ?_⟩
    have hm : row1 ∈ db.filter (fun r3 => r3.id == idv) := by rw [heq]; simp
    exact beq_iff_eq.mp (List.mem_filter.mp hm).2
  · cases hq

/-- C6: updating a present id is reflected by a subsequent get-one, and
updating an absent id reports success, creates no row, and leaves the table
unchanged.  Presence of the id is phrased through query_one, which carries the
primary-key uniqueness of the id column. -/
theorem c6_update_semantics (r r2 : String) (env : StoreEnv) (idv : Int) (car : Car)
    (hid : parse_i32 (get_id r) = some idv)
    (hbody : get_car_request_body r = some car)
    (hc : env.connectOk = true) (hop : env.opOk = true) :
    (∀ row, queryOne env.db idv = some row →
      parse_i32 (get_id r2) = some idv →
      handle_put_request r env =
        (some (OK_RESPONSE, "Car updated"), env.db.map (updRow idv car)) ∧
      handle_get_request r2 { env with db := env.db.map (updRow idv car) } =
        (some (OK_RESPONSE, carJson ⟨some idv, car.brand, car.model, car.year, car.price⟩),
         env.db.map (updRow idv car))) ∧
    ((∀ row ∈ env.db, row.id ≠ idv) →
      handle_put_request r env = (some (OK_RESPONSE, "Car updated"), env.db) ∧
      (handle_put_request r env).2.length = env.db.length) := by
  have hput : handle_put_request r env =
      (some (OK_RESPONSE, "Car updated"), env.db.map (updRow idv car)) := by
    simp [handle_put_request, hid, hbody, hc, hop]
  constructor
  · intro row hq hid2
    obtain ⟨hfil, hrid⟩ := queryOne_filter env.db idv row hq
    refine ⟨hput, ?_⟩
    have hq2 : queryOne (env.db.map (updRow idv car)) idv = some (updRow idv car row) := by
      unfold queryOne
      rw [filter_map_updRow, hfil]
      rfl
    have hrow : updRow idv car row = ⟨idv, car.brand, car.model, car.year, car.price⟩ := by
      unfold updRow
      have hb : (row.id == idv) = true := beq_iff_eq.mpr hrid
      rw [hb]
      simp [hrid]
    rw [hrow] at hq2
    simp [handle_get_request, hid2, hc, hop, hq2, rowToCar]
  · intro hall
    rw [map_updRow_eq_self env.db idv car hall] at hput
    exact ⟨hput, by rw [hput]⟩

/-- C6 witness: the theorem applied at a put request changing row 1. -/
theorem c6_witness :
    handle_put_request reqPut0 ⟨true, true, [row0], 2⟩ =
      (some (OK_RESPONSE, "Car updated"), [⟨1, "c", "d", 3, 4⟩]) := by
  have h := (c6_update_semantics reqPut0 reqGet0 ⟨true, true, [row0], 2⟩ 1 ⟨none, "c", "d", 3, 4⟩
    (by decide) (by decide) rfl rfl).1 row0 (by decide) (by decide)
  rw [h.1]
  decide

/-- C1: creating from a decoded body inserts exactly the four value fields of
the body under the store-assigned fresh id, the optional id field of the body
never influences the insert, and a subsequent get-one on the fresh id returns
a vehicle with the same brand, model, year and price. -/
theorem c1_post_get_roundtrip (r1 r2 : String) (env : StoreEnv) (car : Car)
    (hbody : get_car_request_body r1 = some car)
    (hc : env.connectOk = true) (hop : env.opOk = true)
    (hfresh : ∀ row ∈ env.db, row.id ≠ env.freshId)
    (hid : parse_i32 (get_id r2) = some env.freshId) :
    handle_post_request r1 env =
      (some (OK_RESPONSE, "Car created"),
       env.db ++ [⟨env.freshId, car.brand, car.model, car.year, car.price⟩]) ∧
    (∀ (r3 : String) (car2 : Car), get_car_request_body r3 = some car2 →
      car2.brand = car.brand → car2.model = car.model → car2.year = car.year →
      car2.price = car.price →
      handle_post_request r3 env = handle_post_request r1 env) ∧
    handle_get_request r2 { env with db := (handle_post_request r1 env).2 } =
      (some (OK_RESPONSE, carJson ⟨some env.freshId, car.brand, car.model, car.year, car.price⟩),
       (handle_post_request r1 env).2) := by
  have hpost : handle_post_request r1 env =
      (some (OK_RESPONSE, "Car created"),
       env.db ++ [⟨env.freshId, car.brand, car.model, car.year, car.price⟩]) := by
    simp [handle_post_request, hbody, hc, hop]
  refine ⟨hpost, ?_, ?_⟩
  · intro r3 car2 h3 hb hm hy hp2
    rw [hpost]
    simp [handle_post_request, h3, hc, hop, hb, hm, hy, hp2]
  · have hq : queryOne (env.db ++ [⟨env.freshId, car.brand, car.model, car.year, car.price⟩])
        env.freshId = some ⟨env.freshId, car.brand, car.model, car.year, car.price⟩ := by
      unfold queryOne
      rw [List.filter_append, filter_id_nil env.db env.freshId hfresh]
      simp
    rw [hpost]
    simp [handle_get_request, hid, hc, hop, hq, rowToCar]

/-- C1 witness: the round-trip theorem applied at a concrete post request over
the empty table. -/
theorem c1_witness :
    handle_post_request reqPost0 ⟨true, true, [], 1⟩ =
      (some (OK_RESPONSE, "Car created"), [⟨1, "a", "b", 1, 2⟩]) := by
  have h := c1_post_get_roundtrip reqPost0 reqGet0 ⟨true, true, [], 1⟩ ⟨none, "a", "b", 1, 2⟩
    (by decide) rfl rfl (by simp) (by decide)
  exact h.1

theorem decodeFields_nil (st : DecSt) : decodeFields st [] = some st := rfl

theorem decodeFields_cons (st : DecSt) (kv : String × Json) (rest : List (String × Json)) :
    decodeFields st (kv :: rest) =
      (match decStep st kv with
       | some s2 => decodeFields s2 rest
       | none => none) := rfl

theorem decodeFields_cons_some (st s2 : DecSt) (kv : String × Json) (rest : List (String × Json))
    (h : decStep st kv = some s2) : decodeFields st (kv :: rest) = decodeFields s2 rest := by
  rw [decodeFields_cons, h]

theorem decStep_fields (st : DecSt) (kv : String × Json) (st2 : DecSt)
    (h : decStep st kv = some st2) :
    (kv.1 ≠ "id" → st2.fid = st.fid) ∧
    (kv.1 ≠ "brand" → st2.fbrand = st.fbrand) ∧
    (kv.1 ≠ "model" → st2.fmodel = st.fmodel) ∧
    (kv.1 ≠ "year" → st2.fyear = st.fyear) ∧
    (kv.1 ≠ "price" → st2.fprice = st.fprice) := by
  unfold decStep at h
  by_cases h1 : kv.1 = "id"
  · rw [if_pos h1] at h
    cases hfid : st.fid with
    | some x =>
      rw [hfid] at h
      simp at h
    | none =>
      rw [hfid] at h
      cases hdec : decodeId kv.2 with
      | none =>
        rw [hdec] at h
        simp at h
      | some x =>
        rw [hdec] at h
        injection h with h2
        subst h2
        exact ⟨fun hcon => absurd h1 hcon, fun _ => rfl, fun _ => rfl, fun _ => rfl, fun _ => rfl⟩
  · rw [if_neg h1] at h
    by_cases h2 : kv.1 = "brand"
    · rw [if_pos h2] at h
      split at h
      · cases h
      · injection h with h3
        subst h3
        exact ⟨fun _ => rfl, fun hcon => absurd h2 hcon, fun _ => rfl, fun _ => rfl, fun _ => rfl⟩
      · cases h
    · rw [if_neg h2] at h
      by_cases h3 : kv.1 = "model"
      · rw [if_pos h3] at h
        split at h
        · cases h
        · injection h with h4
          subst h4
          exact ⟨fun _ => rfl, fun _ => rfl, fun hcon => absurd h3 hcon, fun _ => rfl, fun _ => rfl⟩
        · cases h
      · rw [if_neg h3] at h
        by_cases h4 : kv.1 = "year"
        · rw [if_pos h4] at h
          split at h
          · cases h
          · split at h
            · injection h with h5
              subst h5
              exact ⟨fun _ => rfl, fun _ => rfl, fun _ => rfl, fun hcon => absurd h4 hcon,
                fun _ => rfl⟩
            · cases h
          · cases h
        · rw [if_neg h4] at h
          by_cases h5 : kv.1 = "price"
          · rw [if_pos h5] at h
            split at h
            · cases h
            · injection h with h6
              subst h6
              exact ⟨fun _ => rfl, fun _ => rfl, fun _ => rfl, fun _ => rfl,
                fun hcon => absurd h5 hcon⟩
            · cases h
          · rw [if_neg h5] at h
            injection h with h6
            subst h6
            exact ⟨fun _ => rfl, fun _ => rfl, fun _ => rfl, fun _ => rfl, fun _ => rfl⟩

theorem decStep_unknown (st : DecSt) (kv : String × Json)
    (h1 : kv.1 ≠ "id") (h2 : kv.1 ≠ "brand") (h3 : kv.1 ≠ "model")
    (h4 : kv.1 ≠ "year") (h5 : kv.1 ≠ "price") : decStep st kv = some st := by
  unfold decStep
  rw [if_neg h1, if_neg h2, if_neg h3, if_neg h4, if_neg h5]

theorem decodeFields_keeps {α : Type} (key : String) (f : DecSt → Option α)
    (hf : ∀ st kv st2, decStep st kv = some st2 → kv.1 ≠ key → f st2 = f st) :
    ∀ (kvs : List (String × Json)) (st st2 : DecSt),
      key ∉ kvs.map Prod.fst → decodeFields st kvs = some st2 → f st2 = f st := by
  intro kvs
  induction kvs with
  | nil =>
    intro st st2 _ h
    rw [decodeFields_nil] at h
    injection h with h2
    rw [h2]
  | cons kv rest ih =>
    intro st st2 hmem h
    rw [decodeFields_cons] at h
    cases hstep : decStep st kv with
    | none =>
      rw [hstep] at h
      cases h
    | some s2 =>
      rw [hstep] at h
      have hne : kv.1 ≠ key := fun hcon =>
        hmem (by rw [List.map_cons, hcon]; exact List.mem_cons_self _ _)
      have hmem2 : key ∉ rest.map Prod.fst := fun hcon =>
        hmem (by rw [List.map_cons]; exact List.mem_cons_of_mem _ hcon)
      rw [ih s2 st2 hmem2 h, hf st kv s2 hstep hne]

theorem decodeFields_unknown_keys : ∀ (kvs : List (String × Json)) (st : DecSt),
    (∀ k ∈ kvs.map Prod.fst,
      k ≠ "id" ∧ k ≠ "brand" ∧ k ≠ "model" ∧ k ≠ "year" ∧ k ≠ "price") →
    decodeFields st kvs = some st := by
  intro kvs
  induction kvs with
  | nil => intro st _; rfl
  | cons kv rest ih =>
    intro st hk
    have h0 := hk kv.1 (by rw [List.map_cons]; exact List.mem_cons_self _ _)
    rw [decodeFields_cons_some st st kv rest
      (decStep_unknown st kv h0.1 h0.2.1 h0.2.2.1 h0.2.2.2.1 h0.2.2.2.2)]
    exact ih st (fun k hm => hk k (by rw [List.map_cons]; exact List.mem_cons_of_mem _ hm))

theorem decodeFields_append (l1 l2 : List (String × Json)) : ∀ st,
    decodeFields st (l1 ++ l2) = (decodeFields st l1).bind (fun s2 => decodeFields s2 l2) := by
  induction l1 with
  | nil => intro st; rfl
  | cons kv rest ih =>
    intro st
    rw [List.cons_append, decodeFields_cons, decodeFields_cons]
    cases hstep : decStep st kv with
    | none => rfl
    | some s2 => exact ih s2

theorem finalizeCar_eq_none (st2 : DecSt)
    (h : st2.fbrand = none ∨ st2.fmodel = none ∨ st2.fyear = none ∨ st2.fprice = none) :
    finalizeCar st2 = none := by
  unfold finalizeCar
  split
  · rcases h with h | h | h | h <;> simp_all
  · rfl

/-- C10: a JSON object body missing any of brand, model, year or price fails
decoding and both body-consuming handlers answer the internal error leaving
the store unchanged; a body holding the four fields once with well-typed
values still decodes when an id field or unknown extra fields are present,
and also when the id field is absent. -/
theorem c10_decode_fields :
    (∀ (r : String) (env : StoreEnv) (kvs : List (String × Json)),
      jsonParse (request_body_text r) = some (Json.obj kvs) →
      ("brand" ∉ kvs.map Prod.fst ∨ "model" ∉ kvs.map Prod.fst ∨
       "year" ∉ kvs.map Prod.fst ∨ "price" ∉ kvs.map Prod.fst) →
      handle_post_request r env = (some (INTERNAL_ERROR, "Internal error"), env.db) ∧
      handle_put_request r env = (some (INTERNAL_ERROR, "Internal error"), env.db)) ∧
    (∀ (b m : String) (y : Int) (pv : JNum) (idv : Json) (idd : Option Int)
        (pre post : List (String × Json)),
      i32ok y = true → decodeId idv = some idd →
      (∀ k ∈ (pre ++ post).map Prod.fst,
        k ≠ "id" ∧ k ≠ "brand" ∧ k ≠ "model" ∧ k ≠ "year" ∧ k ≠ "price") →
      decodeCar (Json.obj (pre ++ ([("brand", Json.str b), ("model", Json.str m),
          ("year", Json.num (JNum.int y)), ("price", Json.num pv), ("id", idv)] ++ post))) =
        some ⟨idd, b, m, y, ratOfNum pv⟩) ∧
    (∀ (b m : String) (y : Int) (pv : JNum) (pre post : List (String × Json)),
      i32ok y = true →
      (∀ k ∈ (pre ++ post).map Prod.fst,
        k ≠ "id" ∧ k ≠ "brand" ∧ k ≠ "model" ∧ k ≠ "year" ∧ k ≠ "price") →
      decodeCar (Json.obj (pre ++ ([("brand", Json.str b), ("model", Json.str m),
          ("year", Json.num (JNum.int y)), ("price", Json.num pv)] ++ post))) =
        some ⟨none, b, m, y, ratOfNum pv⟩) := by
  refine ⟨?_, ?_, ?_⟩
  · intro r env kvs hjson hmiss
    have hdec : decodeCar (Json.obj kvs) = none := by
      show (decodeFields initDecSt kvs).bind finalizeCar = none
      cases hdf : decodeFields initDecSt kvs with
      | none => rfl
      | some st2 =>
        have hfin : finalizeCar st2 = none := by
          apply finalizeCar_eq_none
          rcases hmiss with hm | hm | hm | hm
          · exact Or.inl (decodeFields_keeps "brand" (fun st => st.fbrand)
              (fun st kv s2 hs hne => (decStep_fields st kv s2 hs).2.1 hne) kvs initDecSt st2 hm hdf)
          · exact Or.inr (Or.inl (decodeFields_keeps "model" (fun st => st.fmodel)
              (fun st kv s2 hs hne => (decStep_fields st kv s2 hs).2.2.1 hne) kvs initDecSt st2 hm hdf))
          · exact Or.inr (Or.inr (Or.inl (decodeFields_keeps "year" (fun st => st.fyear)
              (fun st kv s2 hs hne => (decStep_fields st kv s2 hs).2.2.2.1 hne) kvs initDecSt st2 hm hdf)))
          · exact Or.inr (Or.inr (Or.inr (decodeFields_keeps "price" (fun st => st.fprice)
              (fun st kv s2 hs hne => (decStep_fields st kv s2 hs).2.2.2.2 hne) kvs initDecSt st2 hm hdf)))
        show (some st2).bind finalizeCar = none
        show finalizeCar st2 = none
        exact hfin
    have hb : get_car_request_body r = none := by
      unfold get_car_request_body
      rw [hjson]
      show decodeCar (Json.obj kvs) = none
      exact hdec
    constructor
    · cases hcon : env.connectOk <;> simp [handle_post_request, hb, hcon]
    · cases hp : parse_i32 (get_id r) <;> cases hcon : env.connectOk <;>
        simp [handle_put_request, hb, hp, hcon]
  · intro b m y pv idv idd pre post hy hdec hkeys
    have hpre : ∀ k ∈ pre.map Prod.fst,
        k ≠ "id" ∧ k ≠ "brand" ∧ k ≠ "model" ∧ k ≠ "year" ∧ k ≠ "price" :=
      fun k hm => hkeys k (by rw [List.map_append]; exact List.mem_append_left _ hm)
    have hpost : ∀ k ∈ post.map Prod.fst,
        k ≠ "id" ∧ k ≠ "brand" ∧ k ≠ "model" ∧ k ≠ "year" ∧ k ≠ "price" :=
      fun k hm => hkeys k (by rw [List.map_append]; exact List.mem_append_right _ hm)
    have s1 : decStep initDecSt ("brand", Json.str b) =
        some ⟨none, some b, none, none, none⟩ := rfl
    have s2 : decStep ⟨none, some b, none, none, none⟩ ("model", Json.str m) =
        some ⟨none, some b, some m, none, none⟩ := rfl
    have s3 : decStep ⟨none, some b, some m, none, none⟩ ("year", Json.num (JNum.int y)) =
        if i32ok y then some ⟨none, some b, some m, some y, none⟩ else none := rfl
    have s4 : decStep ⟨none, some b, some m, some y, none⟩ ("price", Json.num pv) =
        some ⟨none, some b, some m, some y, some (ratOfNum pv)⟩ := rfl
    have s5 : decStep ⟨none, some b, some m, some y, some (ratOfNum pv)⟩ ("id", idv) =
        (decodeId idv).map
          (fun x => ⟨some x, some b, some m, some y, some (ratOfNum pv)⟩) := rfl
    have s5b : decStep ⟨none, some b, some m, some y, some (ratOfNum pv)⟩ ("id", idv) =
        some ⟨some idd, some b, some m, some y, some (ratOfNum pv)⟩ := by
      rw [s5, hdec]
      rfl
    show (decodeFields initDecSt _).bind finalizeCar = _
    rw [decodeFields_append, decodeFields_unknown_keys pre initDecSt hpre]
    show (decodeFields initDecSt _).bind finalizeCar = _
    rw [decodeFields_append,
        decodeFields_cons_some _ _ _ _ s1,
        decodeFields_cons_some _ _ _ _ s2,
        decodeFields_cons_some _ _ _ _ (s3.trans (if_pos hy)),
        decodeFields_cons_some _ _ _ _ s4,
        decodeFields_cons_some _ _ _ _ s5b,
        decodeFields_nil]
    show (decodeFields ⟨some idd, some b, some m, some y, some (ratOfNum pv)⟩ post).bind
        finalizeCar = _
    rw [decodeFields_unknown_keys post _ hpost]
    rfl
  · intro b m y pv pre post hy hkeys
    have hpre : ∀ k ∈ pre.map Prod.fst,
        k ≠ "id" ∧ k ≠ "brand" ∧ k ≠ "model" ∧ k ≠ "year" ∧ k ≠ "price" :=
      fun k hm => hkeys k (by rw [List.map_append]; exact List.mem_append_left _ hm)
    have hpost : ∀ k ∈ post.map Prod.fst,
        k ≠ "id" ∧ k ≠ "brand" ∧ k ≠ "model" ∧ k ≠ "year" ∧ k ≠ "price" :=
      fun k hm => hkeys k (by rw [List.map_append]; exact List.mem_append_right _ hm)
    have s1 : decStep initDecSt ("brand", Json.str b) =
        some ⟨none, some b, none, none, none⟩ := rfl
    have s2 : decStep ⟨none, some b, none, none, none⟩ ("model", Json.str m) =
        some ⟨none, some b, some m, none, none⟩ := rfl
    have s3 : decStep ⟨none, some b, some m, none, none⟩ ("year", Json.num (JNum.int y)) =
        if i32ok y then some ⟨none, some b, some m, some y, none⟩ else none := rfl
    have s4 : decStep ⟨none, some b, some m, some y, none⟩ ("price", Json.num pv) =
        some ⟨none, some b, some m, some y, some (ratOfNum pv)⟩ := rfl
    show (decodeFields initDecSt _).bind finalizeCar = _
    rw [decodeFields_append, decodeFields_unknown_keys pre initDecSt hpre]
    show (decodeFields initDecSt _).bind finalizeCar = _
    rw [decodeFields_append,
        decodeFields_cons_some _ _ _ _ s1,
        decodeFields_cons_some _ _ _ _ s2,
        decodeFields_cons_some _ _ _ _ (s3.trans (if_pos hy)),
        decodeFields_cons_some _ _ _ _ s4,
        decodeFields_nil]
    show (decodeFields ⟨none, some b, some m, some y, some (ratOfNum pv)⟩ post).bind
        finalizeCar = _
    rw [decodeFields_unknown_keys post _ hpost]
    rfl

/-- C10 witness: the theorem applied at an object with an unknown field, the
four required fields and a null id. -/
theorem c10_witness :
    decodeCar (Json.obj [("zzz", Json.bool true), ("brand", Json.str "a"),
      ("model", Json.str "b"), ("year", Json.num (JNum.int 1)),
      ("price", Json.num (JNum.int 2)), ("id", Json.null)]) =
      some ⟨none, "a", "b", 1, ratOfNum (JNum.int 2)⟩ :=
  (c10_decode_fields).2.1 "a" "b" 1 (JNum.int 2) Json.null none
    [("zzz", Json.bool true)] [] (by decide) (by decide) (by decide)
